import Mathlib

/-!
Verification of the manhwa OCR core (src/core.ts): the text formatter
(formatText), the adaptive segmentation algorithm (findBestCutPosition and
the slicing loop of processManhwa) and the multi-credential failover
dispatcher (the per-slice retry loop of processManhwa).

Modeling conventions:
- Pixels are (r, g, b) triples of natural numbers; getImageData yields
  clamped bytes, which is captured by the IsByteImage predicate where a
  proof needs it.
- JavaScript double arithmetic on energy scores is modeled exactly over the
  rationals; Number.MAX_VALUE is modeled by its exact rational value.
- The external generateContent call is an oracle indexed by attempt number.
  Its response text is represented by the result of parsing it, because
  JSON.parse is an external builtin: ApiResult.throw models a thrown call,
  ApiResult.ok none models a response without a text payload (the source
  substitutes the literal empty-array text, which parses to an empty list),
  ApiResult.ok (some none) models a text payload that is not decodable as
  JSON (JSON.parse throws, and the surrounding try/catch treats it as a
  failed attempt), and ApiResult.ok (some (some j)) models a decodable
  payload with parse result j.
-/

namespace ManhwaOcr

/-! Section 1: text formatting (core.ts lines 5-24). -/

/-- A parsed extraction record; both fields may be absent in the JSON the
service returns, which the source handles with truthiness defaults. -/
structure ExtractionRecord where
  text : Option String
  category : Option String
  deriving DecidableEq, Repr

/-- JavaScript truthiness default for string-or-absent values: the
expression x || d yields d when x is absent or the empty string. -/
def jsOr : Option String → String → String
  | none, d => d
  | some s, d => if s = "" then d else s

/-- The JavaScript string trim builtin, embedded directly on the character
sequence: whitespace is stripped from both ends. -/
def jsTrim (s : String) : String :=
  ⟨((s.data.dropWhile Char.isWhitespace).reverse.dropWhile
      Char.isWhitespace).reverse⟩

/-- formatText (core.ts lines 10-24): trim the text and prepend the fixed
prefix of the category; the switch compares against the string values of
the TextBlockCategory enum, whose SFX member has the uppercase value. -/
def formatText (text category : String) : String :=
  let t := jsTrim text
  if category = "speech" then "“”: " ++ t
  else if category = "thought" then "(): " ++ t
  else if category = "box" then "[]: " ++ t
  else if category = "narration" then "OT: " ++ t
  else if category = "small_text" then "ST: " ++ t
  else if category = "system" then "\x7b\x7d: " ++ t
  else if category = "scream" then ":: " ++ t
  else if category = "linked" then "//: " ++ t
  else if category = "SFX" then "SFX: " ++ t
  else t

/-- The nine string values of the TextBlockCategory enum (core.ts lines
5-8); note the SFX member carries an uppercase value. -/
def knownCategories : List String :=
  ["speech", "thought", "box", "narration", "small_text", "SFX", "system",
   "scream", "linked"]

/-- One output line per record (core.ts line 123): both fields fall back
through JavaScript truthiness, the category to the speech value. -/
def formatLine (b : ExtractionRecord) : String :=
  formatText (jsOr b.text "") (jsOr b.category "speech")

/-! Section 2: adaptive segmentation (core.ts lines 27-54 and 69-75). -/

/-- Per-pixel energy (core.ts lines 44-47): the minimum of the distance to
white and the distance to black. -/
def pixelEnergy (p : Nat × Nat × Nat) : Nat :=
  min (((255 : Int) - (p.1 : Int)).natAbs + ((255 : Int) - (p.2.1 : Int)).natAbs
        + ((255 : Int) - (p.2.2 : Int)).natAbs)
    (p.1 + p.2.1 + p.2.2)

/-- The sampled x coordinates of one row scan (core.ts line 42): every
tenth pixel starting at zero. -/
def sampleXs (width : Nat) : List Nat :=
  (List.range width).filter (fun x => x % 10 = 0)

/-- Row energy (core.ts lines 41-48): the sum of pixel energies over the
sampled x coordinates of the given absolute row. -/
def rowEnergy (pix : Nat → Nat → Nat × Nat × Nat) (width row : Nat) : Nat :=
  (sampleXs width).foldl (fun acc x => acc + pixelEnergy (pix x row)) 0

/-- The sampled row offsets of one scan window (core.ts line 40): every
fourth row starting at zero. -/
def scanYs (scanH : Nat) : List Nat :=
  (List.range scanH).filter (fun y => y % 4 = 0)

/-- Number.MAX_VALUE, the initial sentinel of the best-score search
(core.ts line 38), as an exact rational. -/
def maxValue : ℚ := (2 ^ 53 - 1) * 2 ^ 971

/-- Penalized score of the sampled row at offset y within the scan window
(core.ts lines 49-50): average row energy plus a linear bias toward the
end of the window. -/
def finalScore (pix : Nat → Nat → Nat × Nat × Nat)
    (width scanH base y : Nat) : ℚ :=
  ((rowEnergy pix width (base + y) : ℚ) / ((width : ℚ) / 10))
    + (((scanH - y : Nat) : ℚ) * (1 / 5))

/-- One iteration of the best-score search (core.ts line 51): keep the row
whose penalized score strictly improves on the best so far. -/
def cutStep (pix : Nat → Nat → Nat × Nat × Nat)
    (width scanH base startScan : Nat) (s : ℚ × Nat) (y : Nat) : ℚ × Nat :=
  if finalScore pix width scanH base y < s.1
  then (finalScore pix width scanH base y, startScan + y)
  else s

/-- findBestCutPosition (core.ts lines 27-54): if the remaining height fits
in one slice return it whole, otherwise scan the window between the
minimum and maximum slice heights and return the best sampled offset. -/
def findBestCutPosition (pix : Nat → Nat → Nat × Nat × Nat)
    (height width currentY maxH minH : Nat) : Nat :=
  if height - currentY ≤ maxH then height - currentY
  else
    ((scanYs (maxH - minH)).foldl
      (cutStep pix width (maxH - minH) (currentY + minH) minH)
      (maxValue, maxH)).2

/-- The slicing loop of processManhwa (core.ts lines 69-75) with the
hard-coded bounds MAX_SLICE = 3000 and MIN_SLICE = 1500, written with an
explicit iteration budget; a budget of H steps is shown sufficient below
because every emitted slice has positive height. -/
def sliceLoopF (pix : Nat → Nat → Nat × Nat × Nat) (W H : Nat) :
    Nat → Nat → List (Nat × Nat)
  | 0, _ => []
  | fuel + 1, currentY =>
    if currentY < H then
      (currentY, findBestCutPosition pix H W currentY 3000 1500) ::
        sliceLoopF pix W H fuel
          (currentY + findBestCutPosition pix H W currentY 3000 1500)
    else []

/-- The boundary list produced by processManhwa for an image of width W and
height H: pairs of (start row, slice height). -/
def sliceBoundaries (pix : Nat → Nat → Nat × Nat × Nat) (W H : Nat) :
    List (Nat × Nat) :=
  sliceLoopF pix W H H 0

/-- Pixel data coming from getImageData is byte-clamped per channel. -/
def IsByteImage (pix : Nat → Nat → Nat × Nat × Nat) : Prop :=
  ∀ x y, (pix x y).1 ≤ 255 ∧ (pix x y).2.1 ≤ 255 ∧ (pix x y).2.2 ≤ 255

/-- Boundaries starting at c are contiguous: each starts where the
previous one ended. -/
def Contiguous : Nat → List (Nat × Nat) → Prop
  | _, [] => True
  | c, b :: rest => b.1 = c ∧ Contiguous (c + b.2) rest

/-- An all-white test image. -/
def whitePix : Nat → Nat → Nat × Nat × Nat := fun _ _ => (255, 255, 255)

/-- An all-black test image. -/
def blackPix : Nat → Nat → Nat × Nat × Nat := fun _ _ => (0, 0, 0)

/-- A mid-gray test image with a single white row at absolute row 1500. -/
def stripePix : Nat → Nat → Nat × Nat × Nat :=
  fun _ y => if y = 1500 then (255, 255, 255) else (128, 128, 128)

/-! Section 3: resilient multi-credential dispatch (core.ts lines 78-118). -/

/-- The parse result of a decodable response payload: either a JSON array
of records, or some other JSON value. -/
inductive Json where
  | jarr : List ExtractionRecord → Json
  | jother : Json
  deriving DecidableEq

/-- Outcome of one generateContent call, with the text payload represented
by its parse result (see the modeling note at the top of the file). -/
inductive ApiResult where
  | throw : ApiResult
  | ok : Option (Option Json) → ApiResult
  deriving DecidableEq

/-- The body of one attempt of the failover loop (core.ts lines 92-114):
some bs means the try block completed and appended bs to allBlocks, none
means the catch block ran and the attempt counts as a failure. A missing
text payload is replaced by the empty-array literal, which parses to an
empty list; an undecodable payload makes JSON.parse throw inside the try
block; a decoded non-array value appends nothing. -/
def attemptStep : ApiResult → Option (List ExtractionRecord)
  | ApiResult.throw => none
  | ApiResult.ok none => some []
  | ApiResult.ok (some none) => none
  | ApiResult.ok (some (some (Json.jarr xs))) => some xs
  | ApiResult.ok (some (some Json.jother)) => some []

/-- Round-robin credential selection (core.ts line 88). -/
def keyIndex (i attempts poolSize : Nat) : Nat := (i + attempts) % poolSize

/-- Result of the failover loop for one slice: the records it appended to
allBlocks, the final success flag, and the credential indices tried in
order. -/
structure SliceResult where
  blocks : List ExtractionRecord
  success : Bool
  keysTried : List Nat
  deriving DecidableEq, Repr

/-- The failover loop of processManhwa (core.ts lines 85-115), recursing on
the remaining attempt budget poolSize - attempts: on success it stops
without incrementing the attempt counter, on failure it increments and
retries with the next round-robin credential. -/
def sliceGo (call : Nat → ApiResult) (poolSize i : Nat) :
    Nat → Nat → SliceResult
  | 0, _ => ⟨[], false, []⟩
  | fuel + 1, attempts =>
    match attemptStep (call attempts) with
    | some bs => ⟨bs, true, [keyIndex i attempts poolSize]⟩
    | none =>
      let r := sliceGo call poolSize i fuel (attempts + 1)
      ⟨r.blocks, r.success, keyIndex i attempts poolSize :: r.keysTried⟩

/-- Processing of one slice (core.ts lines 80-117): the failover loop
starting with zero attempts, with at most poolSize of them. -/
def runSlice (call : Nat → ApiResult) (poolSize i : Nat) : SliceResult :=
  sliceGo call poolSize i poolSize 0

/-- The per-slice outcomes of the dispatch loop over n slices, in slice
order; calls gives the oracle of each slice. -/
def processAll (calls : Nat → Nat → ApiResult) (poolSize n : Nat) :
    List SliceResult :=
  (List.range n).map (fun i => runSlice (calls i) poolSize i)

/-- The accumulated allBlocks array (core.ts lines 78-118): each slice
appends its records in slice order. -/
def allBlocks (calls : Nat → Nat → ApiResult) (poolSize n : Nat) :
    List ExtractionRecord :=
  (List.range n).foldl (fun acc i => acc ++ (runSlice (calls i) poolSize i).blocks) []

/-- The final output string (core.ts lines 121-125): one formatted line
per record, newline-terminated. -/
def finalText (calls : Nat → Nat → ApiResult) (poolSize n : Nat) : String :=
  (allBlocks calls poolSize n).foldl (fun acc b => acc ++ formatLine b ++ "\n") ""

/-! Fold lemmas for the best-score search. -/

/-- The best-score search either keeps its initial state or ends on the
score and position of some scanned offset. -/
theorem foldl_cutStep_cases (pix : Nat → Nat → Nat × Nat × Nat)
    (W sH b st : Nat) :
    ∀ (l : List Nat) (s : ℚ × Nat),
      l.foldl (cutStep pix W sH b st) s = s ∨
        ∃ y ∈ l, l.foldl (cutStep pix W sH b st) s
          = (finalScore pix W sH b y, st + y) := by
  intro l
  induction l with
  | nil => intro s; exact Or.inl rfl
  | cons y t ih =>
    intro s
    rw [List.foldl_cons]
    rcases ih (cutStep pix W sH b st s y) with h | ⟨z, hz, h⟩
    · rw [h]
      unfold cutStep
      split
      · exact Or.inr ⟨y, List.mem_cons_self y t, rfl⟩
      · exact Or.inl rfl
    · exact Or.inr ⟨z, List.mem_cons_of_mem y hz, h⟩

/-- If no scanned offset strictly improves on the current best score, the
search state is unchanged. -/
theorem foldl_cutStep_self (pix : Nat → Nat → Nat × Nat × Nat)
    (W sH b st : Nat) :
    ∀ (l : List Nat) (s : ℚ × Nat),
      (∀ y ∈ l, ¬ finalScore pix W sH b y < s.1) →
      l.foldl (cutStep pix W sH b st) s = s := by
  intro l
  induction l with
  | nil => intro s _; rfl
  | cons y t ih =>
    intro s h
    rw [List.foldl_cons]
    have hy : cutStep pix W sH b st s y = s := by
      unfold cutStep
      rw [if_neg (h y (List.mem_cons_self y t))]
    rw [hy]
    exact ih s (fun z hz => h z (List.mem_cons_of_mem y hz))

/-- As soon as one scanned offset beats the current best score, the final
position is one of the scanned offsets. -/
theorem foldl_cutStep_improve (pix : Nat → Nat → Nat × Nat × Nat)
    (W sH b st : Nat) (y : Nat) (l : List Nat) (s : ℚ × Nat)
    (h : finalScore pix W sH b y < s.1) :
    ∃ z ∈ y :: l,
      ((y :: l).foldl (cutStep pix W sH b st) s).2 = st + z := by
  rw [List.foldl_cons]
  have hy : cutStep pix W sH b st s y = (finalScore pix W sH b y, st + y) := by
    unfold cutStep
    rw [if_pos h]
  rw [hy]
  rcases foldl_cutStep_cases pix W sH b st l (finalScore pix W sH b y, st + y)
    with h2 | ⟨z, hz, h2⟩
  · exact ⟨y, List.mem_cons_self y l, by rw [h2]⟩
  · exact ⟨z, List.mem_cons_of_mem y hz, by rw [h2]⟩

/-- If the head beats the initial score and no later offset beats the
head, the search ends on the head. -/
theorem foldl_cutStep_head (pix : Nat → Nat → Nat × Nat × Nat)
    (W sH b st : Nat) (y : Nat) (l : List Nat) (s : ℚ × Nat)
    (h : finalScore pix W sH b y < s.1)
    (hmin : ∀ z ∈ l, ¬ finalScore pix W sH b z < finalScore pix W sH b y) :
    (y :: l).foldl (cutStep pix W sH b st) s
      = (finalScore pix W sH b y, st + y) := by
  rw [List.foldl_cons]
  have hy : cutStep pix W sH b st s y = (finalScore pix W sH b y, st + y) := by
    unfold cutStep
    rw [if_pos h]
  rw [hy]
  exact foldl_cutStep_self pix W sH b st l _ hmin

/-- If the last offset beats the initial score and strictly beats every
earlier offset, the search ends on the last offset. -/
theorem foldl_cutStep_snoc (pix : Nat → Nat → Nat × Nat × Nat)
    (W sH b st : Nat) (l : List Nat) (z : Nat) (s : ℚ × Nat)
    (h : finalScore pix W sH b z < s.1)
    (hmin : ∀ y ∈ l, finalScore pix W sH b z < finalScore pix W sH b y) :
    (l ++ [z]).foldl (cutStep pix W sH b st) s
      = (finalScore pix W sH b z, st + z) := by
  rw [List.foldl_append]
  rcases foldl_cutStep_cases pix W sH b st l s with h2 | ⟨y, hy, h2⟩
  · rw [h2]
    show cutStep pix W sH b st s z = _
    unfold cutStep
    rw [if_pos h]
  · rw [h2]
    show cutStep pix W sH b st (finalScore pix W sH b y, st + y) z = _
    unfold cutStep
    rw [if_pos (hmin y hy)]

/-! Structure of the sampled row offsets. -/

/-- Membership in the sampled offsets: multiples of four below the window
height. -/
theorem mem_scanYs (sH y : Nat) : y ∈ scanYs sH ↔ y < sH ∧ y % 4 = 0 := by
  simp [scanYs, List.mem_filter, List.mem_range]

/-- The sampled offsets are exactly the multiples of four, enumerated in
order. -/
theorem scanYs_eq_map (n : Nat) :
    scanYs n = (List.range ((n + 3) / 4)).map (fun k => 4 * k) := by
  induction n with
  | zero => rfl
  | succ n ih =>
    unfold scanYs
    rw [List.range_succ, List.filter_append]
    unfold scanYs at ih
    rw [ih]
    by_cases h : n % 4 = 0
    · have hm : (n + 1 + 3) / 4 = (n + 3) / 4 + 1 := by omega
      have hn : 4 * ((n + 3) / 4) = n := by omega
      rw [hm, List.range_succ, List.map_append]
      simp [h, hn]
    · have hm : (n + 1 + 3) / 4 = (n + 3) / 4 := by omega
      rw [hm]
      simp [h]

/-- The sampled offsets of the slicing scan window: every fourth row below
1500, ending at offset 1496. -/
theorem scanYs_1500 :
    scanYs 1500 = (List.range 374).map (fun k => 4 * k) ++ [1496] := by
  rw [scanYs_eq_map]
  norm_num
  rw [List.range_succ, List.map_append]
  norm_num

/-! Characterization of findBestCutPosition. -/

/-- When the remaining height fits in one slice, the whole remainder is
returned and the pixel scan is not consulted. -/
theorem findBestCut_of_le (pix : Nat → Nat → Nat × Nat × Nat)
    (height W c maxH minH : Nat) (h : height - c ≤ maxH) :
    findBestCutPosition pix height W c maxH minH = height - c := by
  unfold findBestCutPosition
  rw [if_pos h]

/-- When the remaining height does not fit, the result is the best-score
search over the scan window. -/
theorem findBestCut_of_lt (pix : Nat → Nat → Nat × Nat × Nat)
    (height W c maxH minH : Nat) (h : maxH < height - c) :
    findBestCutPosition pix height W c maxH minH
      = ((scanYs (maxH - minH)).foldl
          (cutStep pix W (maxH - minH) (c + minH) minH) (maxValue, maxH)).2 := by
  unfold findBestCutPosition
  rw [if_neg (Nat.not_le.2 h)]

/-- In the scanning branch the result is the end of the window or a
sampled offset past the window start. -/
theorem findBestCut_cases (pix : Nat → Nat → Nat × Nat × Nat)
    (height W c maxH minH : Nat) (h : maxH < height - c) :
    findBestCutPosition pix height W c maxH minH = maxH ∨
      ∃ y, y < maxH - minH ∧ y % 4 = 0 ∧
        findBestCutPosition pix height W c maxH minH = minH + y := by
  rw [findBestCut_of_lt pix height W c maxH minH h]
  rcases foldl_cutStep_cases pix W (maxH - minH) (c + minH) minH
      (scanYs (maxH - minH)) (maxValue, maxH) with h2 | ⟨y, hy, h2⟩
  · left
    rw [h2]
  · right
    rw [mem_scanYs] at hy
    exact ⟨y, hy.1, hy.2, by rw [h2]⟩

/-- In the scanning branch the result lies between the two slice height
bounds. -/
theorem findBestCut_bounds (pix : Nat → Nat → Nat × Nat × Nat)
    (height W c maxH minH : Nat) (h : maxH < height - c) (hm : minH ≤ maxH) :
    minH ≤ findBestCutPosition pix height W c maxH minH ∧
      findBestCutPosition pix height W c maxH minH ≤ maxH := by
  rcases findBestCut_cases pix height W c maxH minH h with h2 | ⟨y, hy1, _, h2⟩
  · omega
  · omega

/-- With the hard-coded slicing bounds the cut height is always positive,
so the slicing loop advances. -/
theorem findBestCut_pos (pix : Nat → Nat → Nat × Nat × Nat)
    (height W c : Nat) (h : c < height) :
    0 < findBestCutPosition pix height W c 3000 1500 := by
  by_cases h3 : height - c ≤ 3000
  · rw [findBestCut_of_le pix height W c 3000 1500 h3]
    omega
  · have := findBestCut_bounds pix height W c 3000 1500 (by omega) (by omega)
    omega

/-! Concrete image computations. -/

/-- Rows of the all-white image have zero energy at every width. -/
theorem rowEnergy_white (W r : Nat) : rowEnergy whitePix W r = 0 := by
  have h : ∀ (l : List Nat) (acc : Nat),
      l.foldl (fun a x => a + pixelEnergy (whitePix x r)) acc = acc := by
    intro l
    induction l with
    | nil => intro acc; rfl
    | cons x t ih =>
      intro acc
      rw [List.foldl_cons]
      have hz : pixelEnergy (whitePix x r) = 0 := rfl
      rw [hz, Nat.add_zero]
      exact ih acc
  exact h (sampleXs W) 0

/-- Scores over the all-white image reduce to the pure penalty term. -/
theorem finalScore_white (W sH b y : Nat) :
    finalScore whitePix W sH b y = ((sH - y : Nat) : ℚ) * (1 / 5) := by
  unfold finalScore
  rw [rowEnergy_white]
  norm_num

/-- The ten-pixel-wide scan samples only the leftmost pixel. -/
theorem sampleXs_10 : sampleXs 10 = [0] := by decide

/-- Row energy of the striped image at width ten: zero on the white row,
381 on every gray row. -/
theorem rowEnergy_stripe (r : Nat) :
    rowEnergy stripePix 10 r = if r = 1500 then 0 else 381 := by
  unfold rowEnergy
  rw [sampleXs_10]
  by_cases h : r = 1500
  · simp only [h, List.foldl, stripePix, if_pos]
    decide
  · simp only [List.foldl, stripePix, if_neg h]
    decide

/-- Scores over the striped image at width ten. -/
theorem finalScore_stripe (sH b y : Nat) :
    finalScore stripePix 10 sH b y
      = (if b + y = 1500 then 0 else 381) + ((sH - y : Nat) : ℚ) * (1 / 5) := by
  unfold finalScore
  rw [rowEnergy_stripe]
  by_cases h : b + y = 1500
  · simp [h]
  · simp [h]

/-- Head form of the scan window offsets: offset zero first. -/
theorem scanYs_1500_cons :
    scanYs 1500 = 0 :: (List.range 374).map (fun k => 4 * (k + 1)) := by
  rw [scanYs_eq_map]
  norm_num
  rw [show (375 : Nat) = 374 + 1 from rfl, List.range_succ_eq_map,
    List.map_cons, List.map_map]
  norm_num

/-- On the all-white image the first scan of a 5000-row image cuts at the
last sampled offset, row 2996. -/
theorem white_cut (W : Nat) :
    findBestCutPosition whitePix 5000 W 0 3000 1500 = 2996 := by
  rw [findBestCut_of_lt whitePix 5000 W 0 3000 1500 (by norm_num)]
  show ((scanYs 1500).foldl (cutStep whitePix W 1500 1500 1500)
    (maxValue, 3000)).2 = 2996
  rw [scanYs_1500]
  have hs : finalScore whitePix W 1500 1500 1496 < maxValue := by
    rw [finalScore_white]
    norm_num [maxValue]
  have hmin : ∀ y ∈ (List.range 374).map (fun k => 4 * k),
      finalScore whitePix W 1500 1500 1496 < finalScore whitePix W 1500 1500 y := by
    intro y hy
    rw [List.mem_map] at hy
    obtain ⟨k, hk, rfl⟩ := hy
    rw [List.mem_range] at hk
    rw [finalScore_white, finalScore_white]
    have hlt : ((1500 - 1496 : Nat) : ℚ) < ((1500 - 4 * k : Nat) : ℚ) := by
      rw [Nat.cast_lt]
      omega
    have hp : (0 : ℚ) < 1 / 5 := by norm_num
    exact mul_lt_mul_of_pos_right hlt hp
  rw [foldl_cutStep_snoc whitePix W 1500 1500 1500 _ 1496 (maxValue, 3000)
    hs hmin]

/-- On the striped image the first scan cuts at the white row, offset
zero, absolute row 1500. -/
theorem stripe_cut1 :
    findBestCutPosition stripePix 5000 10 0 3000 1500 = 1500 := by
  rw [findBestCut_of_lt stripePix 5000 10 0 3000 1500 (by norm_num)]
  show ((scanYs 1500).foldl (cutStep stripePix 10 1500 1500 1500)
    (maxValue, 3000)).2 = 1500
  rw [scanYs_1500_cons]
  have hs : finalScore stripePix 10 1500 1500 0 < maxValue := by
    rw [finalScore_stripe]
    norm_num [maxValue]
  have hmin : ∀ z ∈ (List.range 374).map (fun k => 4 * (k + 1)),
      ¬ finalScore stripePix 10 1500 1500 z
        < finalScore stripePix 10 1500 1500 0 := by
    intro z hz
    rw [List.mem_map] at hz
    obtain ⟨k, hk, rfl⟩ := hz
    rw [finalScore_stripe, finalScore_stripe]
    rw [if_pos (by norm_num : 1500 + 0 = 1500)]
    rw [if_neg (by omega : ¬ 1500 + 4 * (k + 1) = 1500)]
    have h1 : (0 : ℚ) ≤ ((1500 - 4 * (k + 1) : Nat) : ℚ) * (1 / 5) := by
      positivity
    have h2 : (0 : ℚ) + ((1500 - 0 : Nat) : ℚ) * (1 / 5) = 300 := by
      norm_num
    rw [h2]
    intro hcon
    nlinarith
  rw [foldl_cutStep_head stripePix 10 1500 1500 1500 0 _ (maxValue, 3000)
    hs hmin]

/-- On the striped image the second scan starts at row 1500, sees only
gray rows, and cuts at the last sampled offset, absolute row 4496. -/
theorem stripe_cut2 :
    findBestCutPosition stripePix 5000 10 1500 3000 1500 = 2996 := by
  rw [findBestCut_of_lt stripePix 5000 10 1500 3000 1500 (by norm_num)]
  show ((scanYs 1500).foldl (cutStep stripePix 10 1500 3000 1500)
    (maxValue, 3000)).2 = 2996
  rw [scanYs_1500]
  have hs : finalScore stripePix 10 1500 3000 1496 < maxValue := by
    rw [finalScore_stripe]
    rw [if_neg (by omega : ¬ 3000 + 1496 = 1500)]
    norm_num [maxValue]
  have hmin : ∀ y ∈ (List.range 374).map (fun k => 4 * k),
      finalScore stripePix 10 1500 3000 1496
        < finalScore stripePix 10 1500 3000 y := by
    intro y hy
    rw [List.mem_map] at hy
    obtain ⟨k, hk, rfl⟩ := hy
    rw [List.mem_range] at hk
    rw [finalScore_stripe, finalScore_stripe]
    rw [if_neg (by omega : ¬ 3000 + 1496 = 1500)]
    rw [if_neg (by omega : ¬ 3000 + 4 * k = 1500)]
    have hlt : ((1500 - 1496 : Nat) : ℚ) < ((1500 - 4 * k : Nat) : ℚ) := by
      rw [Nat.cast_lt]
      omega
    have hp : (0 : ℚ) < 1 / 5 := by norm_num
    have := mul_lt_mul_of_pos_right hlt hp
    linarith
  rw [foldl_cutStep_snoc stripePix 10 1500 3000 1500 _ 1496 (maxValue, 3000)
    hs hmin]

/-! Unfolding lemmas for the slicing loop. -/

/-- The slicing loop stops at or past the image height. -/
theorem sliceLoopF_of_ge (pix : Nat → Nat → Nat × Nat × Nat)
    (W H fuel c : Nat) (h : H ≤ c) : sliceLoopF pix W H fuel c = [] := by
  cases fuel with
  | zero => rfl
  | succ f =>
    show (if c < H then _ else []) = []
    rw [if_neg (Nat.not_lt.2 h)]

/-- One iteration of the slicing loop below the image height. -/
theorem sliceLoopF_succ (pix : Nat → Nat → Nat × Nat × Nat)
    (W H fuel c : Nat) (h : c < H) :
    sliceLoopF pix W H (fuel + 1) c
      = (c, findBestCutPosition pix H W c 3000 1500) ::
          sliceLoopF pix W H fuel (c + findBestCutPosition pix H W c 3000 1500) := by
  show (if c < H then _ else []) = _
  rw [if_pos h]

/-- Boundaries of the all-white 5000-row image: the scan cut at 2996 and
the 2004-row remainder. -/
theorem white_boundaries (W : Nat) :
    sliceBoundaries whitePix W 5000 = [(0, 2996), (2996, 2004)] := by
  have e1 : sliceLoopF whitePix W 5000 5000 0
      = (0, findBestCutPosition whitePix 5000 W 0 3000 1500) ::
          sliceLoopF whitePix W 5000 4999
            (0 + findBestCutPosition whitePix 5000 W 0 3000 1500) :=
    sliceLoopF_succ whitePix W 5000 4999 0 (by norm_num)
  have e2 : sliceLoopF whitePix W 5000 4999 2996
      = (2996, findBestCutPosition whitePix 5000 W 2996 3000 1500) ::
          sliceLoopF whitePix W 5000 4998
            (2996 + findBestCutPosition whitePix 5000 W 2996 3000 1500) :=
    sliceLoopF_succ whitePix W 5000 4998 2996 (by norm_num)
  have c2 : findBestCutPosition whitePix 5000 W 2996 3000 1500 = 2004 := by
    rw [findBestCut_of_le whitePix 5000 W 2996 3000 1500 (by norm_num)]
  unfold sliceBoundaries
  rw [e1, white_cut]
  norm_num
  rw [e2, c2]
  norm_num
  exact sliceLoopF_of_ge whitePix W 5000 4998 5000 (by norm_num)

/-- Boundaries of the striped 5000-row image: the white-row cut at 1500
makes the remainder too tall, forcing a third slice. -/
theorem stripe_boundaries :
    sliceBoundaries stripePix 10 5000 = [(0, 1500), (1500, 2996), (4496, 504)] := by
  have e1 : sliceLoopF stripePix 10 5000 5000 0
      = (0, findBestCutPosition stripePix 5000 10 0 3000 1500) ::
          sliceLoopF stripePix 10 5000 4999
            (0 + findBestCutPosition stripePix 5000 10 0 3000 1500) :=
    sliceLoopF_succ stripePix 10 5000 4999 0 (by norm_num)
  have e2 : sliceLoopF stripePix 10 5000 4999 1500
      = (1500, findBestCutPosition stripePix 5000 10 1500 3000 1500) ::
          sliceLoopF stripePix 10 5000 4998
            (1500 + findBestCutPosition stripePix 5000 10 1500 3000 1500) :=
    sliceLoopF_succ stripePix 10 5000 4998 1500 (by norm_num)
  have e3 : sliceLoopF stripePix 10 5000 4998 4496
      = (4496, findBestCutPosition stripePix 5000 10 4496 3000 1500) ::
          sliceLoopF stripePix 10 5000 4997
            (4496 + findBestCutPosition stripePix 5000 10 4496 3000 1500) :=
    sliceLoopF_succ stripePix 10 5000 4997 4496 (by norm_num)
  have c3 : findBestCutPosition stripePix 5000 10 4496 3000 1500 = 504 := by
    rw [findBestCut_of_le stripePix 5000 10 4496 3000 1500 (by norm_num)]
  unfold sliceBoundaries
  rw [e1, stripe_cut1]
  norm_num
  rw [e2, stripe_cut2]
  norm_num
  rw [e3, c3]
  norm_num
  exact sliceLoopF_of_ge stripePix 10 5000 4997 5000 (by norm_num)

/-! The segmentation invariant. -/

/-- Invariant of the slicing loop: started at currentY with enough budget,
the emitted boundaries are contiguous from currentY, their heights sum to
the remaining height, each height is at most 3000, and every non-final
height is at least 1500. -/
theorem sliceLoopF_spec (pix : Nat → Nat → Nat × Nat × Nat) (W H : Nat) :
    ∀ (fuel currentY : Nat), H - currentY ≤ fuel → currentY ≤ H →
      Contiguous currentY (sliceLoopF pix W H fuel currentY) ∧
      ((sliceLoopF pix W H fuel currentY).map (fun b => b.2)).sum
        = H - currentY ∧
      (∀ b ∈ sliceLoopF pix W H fuel currentY, b.2 ≤ 3000) ∧
      (∀ (k : Nat) (hk : k + 1 < (sliceLoopF pix W H fuel currentY).length),
        1500 ≤ ((sliceLoopF pix W H fuel currentY).get
          ⟨k, Nat.lt_of_succ_lt hk⟩).2) := by
  intro fuel
  induction fuel with
  | zero =>
    intro currentY hf _
    refine ⟨trivial, by simp [sliceLoopF]; omega, ?_, ?_⟩
    · intro b hb
      simp [sliceLoopF] at hb
    · intro k hk
      simp [sliceLoopF] at hk
  | succ f ih =>
    intro currentY hf hcy
    by_cases hc : currentY < H
    · rw [sliceLoopF_succ pix W H f currentY hc]
      by_cases h3 : H - currentY ≤ 3000
      · have hcut : findBestCutPosition pix H W currentY 3000 1500
            = H - currentY := findBestCut_of_le pix H W currentY 3000 1500 h3
        rw [hcut]
        have hrest : sliceLoopF pix W H f (currentY + (H - currentY)) = [] :=
          sliceLoopF_of_ge pix W H f _ (by omega)
        rw [hrest]
        refine ⟨⟨rfl, trivial⟩, by simp, ?_, ?_⟩
        · intro b hb
          rw [List.mem_singleton] at hb
          rw [hb]
          omega
        · intro k hk
          simp at hk
      · have hb3 : 3000 < H - currentY := by omega
        have hbounds := findBestCut_bounds pix H W currentY 3000 1500 hb3
          (by omega)
        set s := findBestCutPosition pix H W currentY 3000 1500 with hs
        have hnext1 : H - (currentY + s) ≤ f := by omega
        have hnext2 : currentY + s ≤ H := by omega
        obtain ⟨ihc, ihsum, ihle, ihmin⟩ := ih (currentY + s) hnext1 hnext2
        refine ⟨⟨rfl, ihc⟩, ?_, ?_, ?_⟩
        · simp only [List.map_cons, List.sum_cons, ihsum]
          omega
        · intro b hb
          rcases List.mem_cons.1 hb with hb | hb
          · rw [hb]
            exact hbounds.2
          · exact ihle b hb
        · intro k hk
          cases k with
          | zero =>
            simpa using hbounds.1
          | succ j =>
            simp only [List.length_cons, Nat.succ_lt_succ_iff] at hk
            simpa using ihmin j hk
    · rw [sliceLoopF_of_ge pix W H (f + 1) currentY (by omega)]
      refine ⟨trivial, by simp; omega, ?_, ?_⟩
      · intro b hb
        simp at hb
      · intro k hk
        simp at hk

/-! Bounds on scores of byte images: the sentinel is always replaced. -/

/-- A byte pixel contributes at most 765 energy. -/
theorem pixelEnergy_le (p : Nat × Nat × Nat) (h1 : p.1 ≤ 255)
    (h2 : p.2.1 ≤ 255) (h3 : p.2.2 ≤ 255) : pixelEnergy p ≤ 765 := by
  have := Nat.min_le_right
    ((((255 : Int) - (p.1 : Int)).natAbs + ((255 : Int) - (p.2.1 : Int)).natAbs
        + ((255 : Int) - (p.2.2 : Int)).natAbs))
    (p.1 + p.2.1 + p.2.2)
  unfold pixelEnergy
  omega

/-- Row energy of a byte image is at most 765 per image column. -/
theorem rowEnergy_le (pix : Nat → Nat → Nat × Nat × Nat)
    (hb : IsByteImage pix) (W r : Nat) : rowEnergy pix W r ≤ 765 * W := by
  have key : ∀ (l : List Nat) (acc : Nat),
      l.foldl (fun a x => a + pixelEnergy (pix x r)) acc
        ≤ acc + 765 * l.length := by
    intro l
    induction l with
    | nil => intro acc; simp
    | cons x t ih =>
      intro acc
      rw [List.foldl_cons]
      have hx := pixelEnergy_le (pix x r) (hb x r).1 (hb x r).2.1 (hb x r).2.2
      have := ih (acc + pixelEnergy (pix x r))
      simp only [List.length_cons]
      omega
  have hlen : (sampleXs W).length ≤ W := by
    have := List.length_filter_le (fun x => decide (x % 10 = 0)) (List.range W)
    simpa [sampleXs] using this
  have := key (sampleXs W) 0
  have : rowEnergy pix W r ≤ 765 * (sampleXs W).length := by
    unfold rowEnergy
    omega
  calc rowEnergy pix W r ≤ 765 * (sampleXs W).length := this
    _ ≤ 765 * W := Nat.mul_le_mul_left 765 hlen

/-- Every score of a byte image with positive width and a window height
within the JavaScript safe-integer range stays below the sentinel. -/
theorem finalScore_lt_maxValue (pix : Nat → Nat → Nat × Nat × Nat)
    (hb : IsByteImage pix) (W sH b y : Nat) (hw : 0 < W)
    (hsH : sH ≤ 2 ^ 53) : finalScore pix W sH b y < maxValue := by
  unfold finalScore
  have hE : (rowEnergy pix W (b + y) : ℚ) ≤ 765 * (W : ℚ) := by
    have := rowEnergy_le pix hb W (b + y)
    have hc : ((rowEnergy pix W (b + y) : Nat) : ℚ) ≤ ((765 * W : Nat) : ℚ) :=
      Nat.cast_le.2 this
    push_cast at hc
    exact hc
  have hwq : (0 : ℚ) < (W : ℚ) / 10 := by
    have : (0 : ℚ) < (W : ℚ) := by
      exact_mod_cast hw
    positivity
  have h1 : (rowEnergy pix W (b + y) : ℚ) / ((W : ℚ) / 10) ≤ 7650 := by
    rw [div_le_iff₀ hwq]
    calc (rowEnergy pix W (b + y) : ℚ) ≤ 765 * (W : ℚ) := hE
      _ = 7650 * ((W : ℚ) / 10) := by ring
  have h2 : (((sH - y : Nat) : ℚ)) * (1 / 5) ≤ (2 : ℚ) ^ 53 := by
    have hle : ((sH - y : Nat) : ℚ) ≤ ((2 ^ 53 : Nat) : ℚ) :=
      Nat.cast_le.2 (by omega)
    push_cast at hle
    nlinarith
  have : (7650 : ℚ) + 2 ^ 53 < maxValue := by
    norm_num [maxValue]
  linarith

/-- In the scanning branch, for a byte image of positive width and sane
bounds, the returned cut is a sampled offset: at least the minimum height
and strictly below the maximum height. -/
theorem findBestCut_strict (pix : Nat → Nat → Nat × Nat × Nat)
    (height W c maxH minH : Nat) (hb : IsByteImage pix) (hw : 0 < W)
    (hmm : minH < maxH) (hM : maxH ≤ 2 ^ 53) (h : maxH < height - c) :
    minH ≤ findBestCutPosition pix height W c maxH minH ∧
      findBestCutPosition pix height W c maxH minH < maxH := by
  rw [findBestCut_of_lt pix height W c maxH minH h]
  obtain ⟨rest, hrest⟩ : ∃ rest, scanYs (maxH - minH) = 0 :: rest := by
    have h0 : 0 < maxH - minH := by omega
    obtain ⟨m, hm⟩ : ∃ m, maxH - minH = m + 1 := ⟨maxH - minH - 1, by omega⟩
    refine ⟨(((List.range m).map Nat.succ).filter (fun y => y % 4 = 0)), ?_⟩
    rw [hm]
    unfold scanYs
    rw [List.range_succ_eq_map]
    rfl
  rw [hrest]
  have hlt : finalScore pix W (maxH - minH) (c + minH) 0 < (maxValue, maxH).1 :=
    finalScore_lt_maxValue pix hb W (maxH - minH) (c + minH) 0 hw (by omega)
  obtain ⟨z, hz, hez⟩ := foldl_cutStep_improve pix W (maxH - minH) (c + minH)
    minH 0 rest (maxValue, maxH) hlt
  rw [hez]
  rw [← hrest] at hz
  rw [mem_scanYs] at hz
  omega

/-! Lemmas on the failover loop. -/

/-- One unfolding of the failover loop with remaining budget. -/
theorem sliceGo_succ (call : Nat → ApiResult) (K i f att : Nat) :
    sliceGo call K i (f + 1) att
      = match attemptStep (call att) with
        | some bs => ⟨bs, true, [keyIndex i att K]⟩
        | none =>
          ⟨(sliceGo call K i f (att + 1)).blocks,
           (sliceGo call K i f (att + 1)).success,
           keyIndex i att K :: (sliceGo call K i f (att + 1)).keysTried⟩ := by
  cases hstep : attemptStep (call att) with
  | some bs =>
    show (match attemptStep (call att) with
      | some bs => (⟨bs, true, [keyIndex i att K]⟩ : SliceResult)
      | none =>
        let r := sliceGo call K i f (att + 1)
        ⟨r.blocks, r.success, keyIndex i att K :: r.keysTried⟩) = _
    rw [hstep]
  | none =>
    show (match attemptStep (call att) with
      | some bs => (⟨bs, true, [keyIndex i att K]⟩ : SliceResult)
      | none =>
        let r := sliceGo call K i f (att + 1)
        ⟨r.blocks, r.success, keyIndex i att K :: r.keysTried⟩) = _
    rw [hstep]

/-- A successful attempt stops the loop with the parsed records and a
single tried credential. -/
theorem sliceGo_some (call : Nat → ApiResult) (K i f att : Nat)
    (bs : List ExtractionRecord) (h : attemptStep (call att) = some bs) :
    sliceGo call K i (f + 1) att = ⟨bs, true, [keyIndex i att K]⟩ := by
  rw [sliceGo_succ, h]

/-- A failed attempt records its credential and continues with the next
attempt counter. -/
theorem sliceGo_none (call : Nat → ApiResult) (K i f att : Nat)
    (h : attemptStep (call att) = none) :
    sliceGo call K i (f + 1) att
      = ⟨(sliceGo call K i f (att + 1)).blocks,
         (sliceGo call K i f (att + 1)).success,
         keyIndex i att K :: (sliceGo call K i f (att + 1)).keysTried⟩ := by
  rw [sliceGo_succ, h]

/-- Credential indices are tried in round-robin order: the a-th entry of
the tried list for a loop started at a given attempt counter follows the
round-robin formula, for every oracle. -/
theorem sliceGo_keysTried_get (call : Nat → ApiResult) (K i : Nat) :
    ∀ (fuel att a : Nat)
      (h : a < (sliceGo call K i fuel att).keysTried.length),
      (sliceGo call K i fuel att).keysTried.get ⟨a, h⟩
        = keyIndex i (att + a) K := by
  intro fuel
  induction fuel with
  | zero =>
    intro att a h
    simp [sliceGo] at h
  | succ f ih =>
    intro att a h
    cases hstep : attemptStep (call att) with
    | some bs =>
      have hres := sliceGo_some call K i f att bs hstep
      cases a with
      | zero =>
        simp [hres, keyIndex]
      | succ j =>
        rw [hres] at h
        simp at h
    | none =>
      have hres := sliceGo_none call K i f att hstep
      cases a with
      | zero =>
        simp [hres]
      | succ j =>
        have hj : j < (sliceGo call K i f (att + 1)).keysTried.length := by
          rw [hres] at h
          simpa using h
        have hval := ih (att + 1) j hj
        have hg : (sliceGo call K i (f + 1) att).keysTried.get ⟨j + 1, h⟩
            = (sliceGo call K i f (att + 1)).keysTried.get ⟨j, hj⟩ := by
          simp [hres]
        rw [hg, hval]
        have harith : att + 1 + j = att + (j + 1) := by omega
        rw [harith]

/-- The failover loop never tries more credentials than its budget. -/
theorem sliceGo_keysTried_length (call : Nat → ApiResult) (K i : Nat) :
    ∀ (fuel att : Nat),
      (sliceGo call K i fuel att).keysTried.length ≤ fuel := by
  intro fuel
  induction fuel with
  | zero =>
    intro att
    simp [sliceGo]
  | succ f ih =>
    intro att
    cases hstep : attemptStep (call att) with
    | some bs =>
      rw [sliceGo_some call K i f att bs hstep]
      simp
    | none =>
      rw [sliceGo_none call K i f att hstep]
      simpa using ih (att + 1)

/-- A failed slice appends nothing to the aggregate record list. -/
theorem sliceGo_blocks_of_fail (call : Nat → ApiResult) (K i : Nat) :
    ∀ (fuel att : Nat), (sliceGo call K i fuel att).success = false →
      (sliceGo call K i fuel att).blocks = [] := by
  intro fuel
  induction fuel with
  | zero =>
    intro att _
    rfl
  | succ f ih =>
    intro att h
    cases hstep : attemptStep (call att) with
    | some bs =>
      rw [sliceGo_some call K i f att bs hstep] at h
      simp at h
    | none =>
      rw [sliceGo_none call K i f att hstep] at h ⊢
      exact ih (att + 1) h

/-- A successful slice carries exactly the record list parsed out of the
response of one in-budget attempt. -/
theorem sliceGo_blocks_of_success (call : Nat → ApiResult) (K i : Nat) :
    ∀ (fuel att : Nat), att + fuel ≤ K →
      (sliceGo call K i fuel att).success = true →
      ∃ a, att ≤ a ∧ a < K ∧
        attemptStep (call a) = some (sliceGo call K i fuel att).blocks := by
  intro fuel
  induction fuel with
  | zero =>
    intro att _ h
    simp [sliceGo] at h
  | succ f ih =>
    intro att hbudget h
    cases hstep : attemptStep (call att) with
    | some bs =>
      refine ⟨att, le_refl att, by omega, ?_⟩
      rw [sliceGo_some call K i f att bs hstep]
      exact hstep
    | none =>
      rw [sliceGo_none call K i f att hstep] at h ⊢
      obtain ⟨a, ha1, ha2, ha3⟩ := ih (att + 1) (by omega) h
      exact ⟨a, by omega, ha2, ha3⟩

/-- Against an oracle whose payloads are never decodable, every attempt
fails: the loop exhausts its budget and ends unsuccessful. -/
theorem sliceGo_malformed (K i : Nat) :
    ∀ (fuel att : Nat),
      (sliceGo (fun _ => ApiResult.ok (some none)) K i fuel att).success
          = false ∧
      (sliceGo (fun _ => ApiResult.ok (some none)) K i fuel att).keysTried.length
          = fuel := by
  intro fuel
  induction fuel with
  | zero =>
    intro att
    exact ⟨rfl, rfl⟩
  | succ f ih =>
    intro att
    have hstep : attemptStep ((fun _ => ApiResult.ok (some none)) att)
        = none := rfl
    rw [sliceGo_none (fun _ => ApiResult.ok (some none)) K i f att hstep]
    refine ⟨(ih (att + 1)).1, ?_⟩
    simpa using (ih (att + 1)).2

/-! Formatting lemmas. -/

/-- A category string outside the nine enum values falls through every
switch case to the default branch: bare trimmed text. -/
theorem formatText_unknown (t c : String) (h : c ∉ knownCategories) :
    formatText t c = jsTrim t := by
  have h1 : ¬ c = "speech" := fun e => h (by rw [e]; decide)
  have h2 : ¬ c = "thought" := fun e => h (by rw [e]; decide)
  have h3 : ¬ c = "box" := fun e => h (by rw [e]; decide)
  have h4 : ¬ c = "narration" := fun e => h (by rw [e]; decide)
  have h5 : ¬ c = "small_text" := fun e => h (by rw [e]; decide)
  have h6 : ¬ c = "system" := fun e => h (by rw [e]; decide)
  have h7 : ¬ c = "scream" := fun e => h (by rw [e]; decide)
  have h8 : ¬ c = "linked" := fun e => h (by rw [e]; decide)
  have h9 : ¬ c = "SFX" := fun e => h (by rw [e]; decide)
  unfold formatText
  rw [if_neg h1, if_neg h2, if_neg h3, if_neg h4, if_neg h5, if_neg h6,
    if_neg h7, if_neg h8, if_neg h9]

/-! Section 4: the claims. -/

/-- Claim C5, counterexample: the record with text hi and the unknown
category mystery is formatted as bare text, not with the speech prefix, so
an unknown (truthy) category does not default to speech. -/
theorem claim_C5_counterexample :
    formatLine ⟨some "hi", some "mystery"⟩ = "hi" ∧
    formatText "hi" "speech" = "“”: hi" ∧
    formatLine ⟨some "hi", some "mystery"⟩ ≠ formatText "hi" "speech" := by
  refine ⟨?_, ?_, ?_⟩ <;> decide

/-- Claim C5, amended: a record whose category is absent, or empty (both
falsy in JavaScript), is formatted as speech; a record with a present,
non-empty, unrecognized category is formatted as the bare trimmed text
with no prefix. -/
theorem claim_C5 :
    ∀ (t : Option String) (c : String),
      formatLine ⟨t, none⟩ = formatText (jsOr t "") "speech" ∧
      formatLine ⟨t, some ""⟩ = formatText (jsOr t "") "speech" ∧
      (c ≠ "" → c ∉ knownCategories →
        formatLine ⟨t, some c⟩ = jsTrim (jsOr t "")) := by
  intro t c
  refine ⟨rfl, rfl, ?_⟩
  intro hne hnk
  unfold formatLine
  have hc : jsOr (some c) "speech" = c := by
    show (if c = "" then "speech" else c) = c
    rw [if_neg hne]
  rw [hc]
  exact formatText_unknown (jsOr t "") c hnk

/-- Claim C5, witness: a record with absent category formats as speech,
and the record with the unknown category mystery formats bare. -/
theorem claim_C5_witness :
    formatLine ⟨some " yo ", none⟩ = formatText (jsOr (some " yo ") "") "speech" ∧
    formatLine ⟨some " yo ", some "mystery"⟩ = jsTrim (jsOr (some " yo ") "") := by
  exact ⟨(claim_C5 (some " yo ") "mystery").1,
    (claim_C5 (some " yo ") "mystery").2.2 (by decide) (by decide)⟩

/-- Claim C6, counterexample: the lowercase category string sfx is not one
of the switch cases (the source enum spells the value SFX), so it formats
as bare trimmed text rather than with the SFX prefix. -/
theorem claim_C6_counterexample :
    formatText " boom " "sfx" = "boom" ∧
    formatText " boom " "sfx" ≠ "SFX: " ++ jsTrim " boom " := by
  refine ⟨?_, ?_⟩ <;> decide

/-- Claim C6, amended: formatText is a pure total function; each of the
nine category values recognized by the source (speech, thought, box,
narration, small_text, SFX spelled uppercase, system, scream, linked)
maps to its fixed prefix followed by the trimmed text, and any other
category string, including lowercase sfx, yields the bare trimmed text
with no prefix. -/
theorem claim_C6 :
    ∀ (t c : String),
      formatText t "speech" = "“”: " ++ jsTrim t ∧
      formatText t "thought" = "(): " ++ jsTrim t ∧
      formatText t "box" = "[]: " ++ jsTrim t ∧
      formatText t "narration" = "OT: " ++ jsTrim t ∧
      formatText t "small_text" = "ST: " ++ jsTrim t ∧
      formatText t "system" = "\x7b\x7d: " ++ jsTrim t ∧
      formatText t "scream" = ":: " ++ jsTrim t ∧
      formatText t "linked" = "//: " ++ jsTrim t ∧
      formatText t "SFX" = "SFX: " ++ jsTrim t ∧
      (c ∉ knownCategories → formatText t c = jsTrim t) := by
  intro t c
  refine ⟨rfl, ?_, ?_, ?_, ?_, ?_, ?_, ?_, ?_, formatText_unknown t c⟩
  all_goals
    unfold formatText
    simp

/-- Claim C6, witness: the uppercase value SFX gets its prefix while the
lowercase string sfx is unrecognized and formats bare. -/
theorem claim_C6_witness :
    formatText "  hi " "SFX" = "SFX: " ++ jsTrim "  hi " ∧
    formatText "  hi " "sfx" = jsTrim "  hi " := by
  exact ⟨(claim_C6 "  hi " "sfx").2.2.2.2.2.2.2.2.1,
    (claim_C6 "  hi " "sfx").2.2.2.2.2.2.2.2.2 (by decide)⟩

/-- Claim C2, counterexample: with a pool of two credentials, a first
response whose text is not decodable as JSON does not end the slice as an
empty-list success; the catch block counts it as a failed attempt and the
second credential is tried. -/
theorem claim_C2_counterexample :
    (runSlice (fun a => if a = 0 then ApiResult.ok (some none)
        else ApiResult.ok (some (some (Json.jarr [])))) 2 0).keysTried
      = [0, 1] ∧
    ([0, 1] : List Nat) ≠ [0] := by
  refine ⟨?_, by decide⟩
  decide

/-- Claim C2, amended: a response whose text decodes to a non-list JSON
value is treated as an empty record list and the attempt counts as a
success, with no further credential tried; a response whose text is not
decodable as JSON makes the attempt fail like a dispatch error, so the
loop moves on to further credentials and, if every response is
undecodable, exhausts the pool without success. -/
theorem claim_C2 :
    ∀ (K i : Nat), 0 < K →
      runSlice (fun _ => ApiResult.ok (some (some Json.jother))) K i
        = ⟨[], true, [i % K]⟩ ∧
      (runSlice (fun _ => ApiResult.ok (some none)) K i).success = false ∧
      (runSlice (fun _ => ApiResult.ok (some none)) K i).keysTried.length
        = K := by
  intro K i hK
  obtain ⟨f, rfl⟩ : ∃ f, K = f + 1 := ⟨K - 1, by omega⟩
  refine ⟨?_, (sliceGo_malformed (f + 1) i (f + 1) 0).1,
    (sliceGo_malformed (f + 1) i (f + 1) 0).2⟩
  show sliceGo (fun _ => ApiResult.ok (some (some Json.jother))) (f + 1) i
    (f + 1) 0 = _
  rw [sliceGo_some (fun _ => ApiResult.ok (some (some Json.jother)))
    (f + 1) i f 0 [] rfl]
  show SliceResult.mk [] true [(i + 0) % (f + 1)] = _
  rw [Nat.add_zero]

/-- Claim C2, witness: with two credentials, a non-list response ends
slice five at once as an empty success, while undecodable responses fail
both attempts. -/
theorem claim_C2_witness :
    runSlice (fun _ => ApiResult.ok (some (some Json.jother))) 2 5
      = ⟨[], true, [5 % 2]⟩ ∧
    (runSlice (fun _ => ApiResult.ok (some none)) 2 5).success = false ∧
    (runSlice (fun _ => ApiResult.ok (some none)) 2 5).keysTried.length
      = 2 := by
  exact claim_C2 2 5 (by decide)

/-- Claim C3: for every oracle, pool size at least one, chunk index and
attempt number, the credential index used by the dispatcher on the a-th
attempt of chunk i is exactly (i + a) mod K; quantifying over every
oracle makes the choice independent of any outcome, and the outcome list
of the dispatch loop ties each chunk to its own oracle only. -/
theorem claim_C3 :
    ∀ (call : Nat → ApiResult) (calls : Nat → Nat → ApiResult) (K i n : Nat),
      0 < K →
      (∀ (a : Nat) (h : a < (runSlice call K i).keysTried.length),
        (runSlice call K i).keysTried.get ⟨a, h⟩ = keyIndex i a K) ∧
      (∀ (h : i < n),
        (processAll calls K n).get ⟨i, by simpa [processAll] using h⟩
          = runSlice (calls i) K i) := by
  intro call calls K i n _
  constructor
  · intro a h
    have hval := sliceGo_keysTried_get call K i K 0 a h
    rw [Nat.zero_add] at hval
    exact hval
  · intro h
    simp [processAll]

/-- Claim C3, witness: slice two over a pool of three keys, all calls
throwing; the second attempt uses credential (2 + 1) mod 3 = 0, and the
outcome list entry of chunk one is its own failover run. -/
theorem claim_C3_witness :
    (runSlice (fun _ => ApiResult.throw) 3 2).keysTried.get ⟨1, by decide⟩
      = keyIndex 2 1 3 ∧
    (processAll (fun _ _ => ApiResult.throw) 3 2).get ⟨1, by decide⟩
      = runSlice ((fun _ _ => ApiResult.throw) 1) 3 1 := by
  exact ⟨(claim_C3 (fun _ => ApiResult.throw) (fun _ _ => ApiResult.throw)
      3 2 2 (by decide)).1 1 (by decide),
    (claim_C3 (fun _ => ApiResult.throw) (fun _ _ => ApiResult.throw)
      3 1 2 (by decide)).2 (by decide)⟩

/-- Claim C4: the failover loop tries at most K credentials; a slice that
never succeeds contributes the empty record list and nothing else; a
successful slice contributes exactly the record list parsed from one
in-budget response; and the dispatch loop always yields one outcome per
slice, so no slice failure aborts the processing of later slices. -/
theorem claim_C4 :
    ∀ (call : Nat → ApiResult) (calls : Nat → Nat → ApiResult) (K i n : Nat),
      (runSlice call K i).keysTried.length ≤ K ∧
      ((runSlice call K i).success = false →
        (runSlice call K i).blocks = []) ∧
      ((runSlice call K i).success = true →
        ∃ a, a < K ∧ attemptStep (call a) = some (runSlice call K i).blocks) ∧
      (processAll calls K n).length = n := by
  intro call calls K i n
  refine ⟨sliceGo_keysTried_length call K i K 0,
    sliceGo_blocks_of_fail call K i K 0, ?_, by simp [processAll]⟩
  intro h
  obtain ⟨a, _, ha2, ha3⟩ :=
    sliceGo_blocks_of_success call K i K 0 (by omega) h
  exact ⟨a, ha2, ha3⟩

/-- Claim C4, witness: two throwing credentials exhaust the budget and
contribute nothing, a missing-text response succeeds with the empty
parsed list, and three slices always produce three outcomes. -/
theorem claim_C4_witness :
    (runSlice (fun _ => ApiResult.throw) 2 0).keysTried.length ≤ 2 ∧
    (runSlice (fun _ => ApiResult.throw) 2 0).blocks = [] ∧
    (∃ a, a < 2 ∧ attemptStep ((fun _ => ApiResult.ok none) a)
      = some (runSlice (fun _ => ApiResult.ok none) 2 0).blocks) ∧
    (processAll (fun _ _ => ApiResult.throw) 2 3).length = 3 := by
  refine ⟨(claim_C4 (fun _ => ApiResult.throw) (fun _ _ => ApiResult.throw)
      2 0 3).1, ?_, ?_, (claim_C4 (fun _ => ApiResult.throw)
      (fun _ _ => ApiResult.throw) 2 0 3).2.2.2⟩
  · exact (claim_C4 (fun _ => ApiResult.throw) (fun _ _ => ApiResult.throw)
      2 0 3).2.1 (by decide)
  · exact (claim_C4 (fun _ => ApiResult.ok none) (fun _ _ => ApiResult.throw)
      2 0 3).2.2.1 (by decide)

/-- Claim C9: the credential indices tried during one chunk failover loop
are pairwise distinct, for every oracle, pool size and chunk index. -/
theorem claim_C9 :
    ∀ (call : Nat → ApiResult) (K i : Nat),
      (runSlice call K i).keysTried.Nodup := by
  intro call K i
  rw [List.nodup_iff_injective_get]
  intro a b hab
  obtain ⟨a, ha⟩ := a
  obtain ⟨b, hb⟩ := b
  have hga : (runSlice call K i).keysTried.get ⟨a, ha⟩
      = keyIndex i (0 + a) K := sliceGo_keysTried_get call K i K 0 a ha
  have hgb : (runSlice call K i).keysTried.get ⟨b, hb⟩
      = keyIndex i (0 + b) K := sliceGo_keysTried_get call K i K 0 b hb
  have hlen : (runSlice call K i).keysTried.length ≤ K :=
    sliceGo_keysTried_length call K i K 0
  rw [hga, hgb] at hab
  unfold keyIndex at hab
  have haK : a < K := by omega
  have hbK : b < K := by omega
  have hmod : Nat.ModEq K (0 + a) (0 + b) :=
    Nat.ModEq.add_left_cancel (Nat.ModEq.refl i) hab
  have : a % K = b % K := by
    simpa [Nat.ModEq] using hmod
  rw [Nat.mod_eq_of_lt haK, Nat.mod_eq_of_lt hbK] at this
  exact Fin.ext this

/-- Claim C1: with the hard-coded bounds 3000 and 1500, the slicing loop
produces contiguous non-overlapping boundaries covering exactly the image
height (heights sum to H), every height is at most 3000, and every
boundary except possibly the last has height at least 1500. -/
theorem claim_C1 :
    ∀ (pix : Nat → Nat → Nat × Nat × Nat) (W H : Nat),
      Contiguous 0 (sliceBoundaries pix W H) ∧
      ((sliceBoundaries pix W H).map (fun b => b.2)).sum = H ∧
      (∀ b ∈ sliceBoundaries pix W H, b.2 ≤ 3000) ∧
      (∀ (k : Nat) (hk : k + 1 < (sliceBoundaries pix W H).length),
        1500 ≤ ((sliceBoundaries pix W H).get
          ⟨k, Nat.lt_of_succ_lt hk⟩).2) := by
  intro pix W H
  have h := sliceLoopF_spec pix W H H 0 (by omega) (by omega)
  rw [Nat.sub_zero] at h
  exact h

/-- Claim C1, witness: the all-white 5000-row image yields the boundaries
(0, 2996) and (2996, 2004), which are contiguous, sum to 5000, stay at or
under 3000, and whose non-final height reaches 1500. -/
theorem claim_C1_witness :
    Contiguous 0 (sliceBoundaries whitePix 10 5000) ∧
    ((sliceBoundaries whitePix 10 5000).map (fun b => b.2)).sum = 5000 ∧
    ((0, 2996) : Nat × Nat).2 ≤ 3000 ∧
    1500 ≤ ((sliceBoundaries whitePix 10 5000).get
      ⟨0, by rw [white_boundaries 10]; decide⟩).2 := by
  refine ⟨(claim_C1 whitePix 10 5000).1, (claim_C1 whitePix 10 5000).2.1,
    ?_, ?_⟩
  · exact (claim_C1 whitePix 10 5000).2.2.1 (0, 2996)
      (by rw [white_boundaries 10]; decide)
  · exact (claim_C1 whitePix 10 5000).2.2.2 0
      (by rw [white_boundaries 10]; decide)

/-- Claim C7, counterexample: on the striped 5000-row image the first cut
lands at 1500, the 3500-row remainder exceeds 3000 and is split again, so
segmentation produces three boundaries, not two. -/
theorem claim_C7_counterexample :
    sliceBoundaries stripePix 10 5000
      = [(0, 1500), (1500, 2996), (4496, 504)] ∧
    (sliceBoundaries stripePix 10 5000).length ≠ 2 := by
  refine ⟨stripe_boundaries, ?_⟩
  rw [stripe_boundaries]
  decide

/-- Claim C7, amended: for a 5000-row image the first boundary is
(0, cutY) with 1500 at most cutY at most 3000; when cutY is at least 2000
the remainder fits one slice and segmentation yields exactly the two
boundaries (0, cutY) and (cutY, 5000 - cutY); when cutY is below 2000 the
remainder exceeds 3000 and is split further. -/
theorem claim_C7 :
    ∀ (pix : Nat → Nat → Nat × Nat × Nat) (W : Nat),
      1500 ≤ findBestCutPosition pix 5000 W 0 3000 1500 ∧
      findBestCutPosition pix 5000 W 0 3000 1500 ≤ 3000 ∧
      (2000 ≤ findBestCutPosition pix 5000 W 0 3000 1500 →
        sliceBoundaries pix W 5000
          = [(0, findBestCutPosition pix 5000 W 0 3000 1500),
             (findBestCutPosition pix 5000 W 0 3000 1500,
              5000 - findBestCutPosition pix 5000 W 0 3000 1500)]) := by
  intro pix W
  have hb := findBestCut_bounds pix 5000 W 0 3000 1500 (by norm_num)
    (by norm_num)
  refine ⟨hb.1, hb.2, ?_⟩
  intro h2
  set c := findBestCutPosition pix 5000 W 0 3000 1500 with hc
  have e1 : sliceLoopF pix W 5000 5000 0
      = (0, c) :: sliceLoopF pix W 5000 4999 (0 + c) :=
    sliceLoopF_succ pix W 5000 4999 0 (by norm_num)
  have hcut2 : findBestCutPosition pix 5000 W c 3000 1500 = 5000 - c :=
    findBestCut_of_le pix 5000 W c 3000 1500 (by omega)
  have e2 : sliceLoopF pix W 5000 4999 c
      = (c, findBestCutPosition pix 5000 W c 3000 1500) ::
          sliceLoopF pix W 5000 4998
            (c + findBestCutPosition pix 5000 W c 3000 1500) :=
    sliceLoopF_succ pix W 5000 4998 c (by omega)
  have e3 : sliceLoopF pix W 5000 4998 (c + (5000 - c)) = [] :=
    sliceLoopF_of_ge pix W 5000 4998 (c + (5000 - c)) (by omega)
  show sliceLoopF pix W 5000 5000 0 = _
  rw [e1, Nat.zero_add, e2, hcut2, e3]

/-- Claim C7, witness: the all-white image cuts at 2996, which is at
least 2000, so exactly the two predicted boundaries appear. -/
theorem claim_C7_witness :
    2000 ≤ findBestCutPosition whitePix 5000 10 0 3000 1500 ∧
    sliceBoundaries whitePix 10 5000
      = [(0, findBestCutPosition whitePix 5000 10 0 3000 1500),
         (findBestCutPosition whitePix 5000 10 0 3000 1500,
          5000 - findBestCutPosition whitePix 5000 10 0 3000 1500)] := by
  have h2000 : 2000 ≤ findBestCutPosition whitePix 5000 10 0 3000 1500 := by
    rw [white_cut 10]
    omega
  exact ⟨h2000, (claim_C7 whitePix 10).2.2 h2000⟩

/-- Claim C8: an image whose height fits within one slice yields exactly
the single boundary (0, H), and whenever the remaining height fits, the
cut is the remainder for every pixel content, so the pixel scan never
influences the result. -/
theorem claim_C8 :
    ∀ (pix pix2 : Nat → Nat → Nat × Nat × Nat) (W H : Nat),
      0 < H → H ≤ 3000 →
      sliceBoundaries pix W H = [(0, H)] ∧
      (∀ (height width c maxH minH : Nat), height - c ≤ maxH →
        findBestCutPosition pix height width c maxH minH = height - c ∧
        findBestCutPosition pix2 height width c maxH minH = height - c) := by
  intro pix pix2 W H h1 h2
  constructor
  · obtain ⟨f, rfl⟩ : ∃ f, H = f + 1 := ⟨H - 1, by omega⟩
    have e1 : sliceLoopF pix W (f + 1) (f + 1) 0
        = (0, findBestCutPosition pix (f + 1) W 0 3000 1500) ::
            sliceLoopF pix W (f + 1) f
              (0 + findBestCutPosition pix (f + 1) W 0 3000 1500) :=
      sliceLoopF_succ pix W (f + 1) f 0 (by omega)
    have hcut : findBestCutPosition pix (f + 1) W 0 3000 1500 = f + 1 := by
      have := findBestCut_of_le pix (f + 1) W 0 3000 1500 (by omega)
      rw [Nat.sub_zero] at this
      exact this
    have e2 : sliceLoopF pix W (f + 1) f (0 + (f + 1)) = [] :=
      sliceLoopF_of_ge pix W (f + 1) f (0 + (f + 1)) (by omega)
    show sliceLoopF pix W (f + 1) (f + 1) 0 = [(0, f + 1)]
    rw [e1, hcut, e2]
  · intro height width c maxH minH hle
    exact ⟨findBestCut_of_le pix height width c maxH minH hle,
      findBestCut_of_le pix2 height width c maxH minH hle⟩

/-- Claim C8, witness: a 2000-row image yields the single boundary
(0, 2000), and the cut equals the remainder on both the all-black and the
all-white image, so the scan did not influence it. -/
theorem claim_C8_witness :
    sliceBoundaries blackPix 7 2000 = [(0, 2000)] ∧
    findBestCutPosition blackPix 2000 7 0 3000 1500 = 2000 - 0 ∧
    findBestCutPosition whitePix 2000 7 0 3000 1500 = 2000 - 0 := by
  obtain ⟨ha, hb⟩ := claim_C8 blackPix whitePix 7 2000 (by decide) (by decide)
  exact ⟨ha, (hb 2000 7 0 3000 1500 (by decide)).1,
    (hb 2000 7 0 3000 1500 (by decide)).2⟩

/-- Claim C10: whenever the remaining height exceeds the maximum slice
height and the minimum height is below the maximum, for a byte image of
positive width with the maximum height in the JavaScript safe-integer
range, the scan window is non-empty and its first sampled score replaces
the sentinel, so the cut is a sampled offset: at least the minimum height
and strictly below the maximum height. -/
theorem claim_C10 :
    ∀ (pix : Nat → Nat → Nat × Nat × Nat) (height W c maxH minH : Nat),
      IsByteImage pix → 0 < W → minH < maxH → maxH ≤ 2 ^ 53 →
      maxH < height - c →
      minH ≤ findBestCutPosition pix height W c maxH minH ∧
      findBestCutPosition pix height W c maxH minH < maxH := by
  intro pix height W c maxH minH hb hw hmm hM h
  exact findBestCut_strict pix height W c maxH minH hb hw hmm hM h

/-- Claim C10, witness: on the all-white 5000-row image with width seven,
the scanning branch returns a cut in the half-open window between 1500
and 3000. -/
theorem claim_C10_witness :
    1500 ≤ findBestCutPosition whitePix 5000 7 0 3000 1500 ∧
    findBestCutPosition whitePix 5000 7 0 3000 1500 < 3000 := by
  exact claim_C10 whitePix 5000 7 0 3000 1500
    (fun x y => ⟨Nat.le_refl 255, Nat.le_refl 255, Nat.le_refl 255⟩)
    (by decide) (by decide) (by norm_num) (by decide)

end ManhwaOcr
